import Mathlib

/-!
Verification development for the YogaMatLabData scripts: a shallow embedding
of the JSON structure discoverer (`analyse-json_2.py` / `analyse-json_3.py`)
and the two CSV flatteners (`json-to-csv_1.py`, "Mode A", one row per
product; `json-to-csv_2.py`, "Mode B", one row per variant), together with
theorems checking the specification's claims about them.

JSON values are embedded as an inductive type; Python dicts become ordered
association lists (insertion order preserved, as in Python 3), numbers are
embedded as integers (no claim depends on float behaviour), and fallible
Python code (KeyError / TypeError and the pandas errors they trigger) is
embedded as `Except Unit`.

Each `re.sub` call in the scripts uses a pattern simple enough that its
leftmost-match semantics is reproduced by a single left-to-right scan:
in `<[^>]+>`, `<[^>]*>` and `<(tag|...)[^>]*>` a match starting at a `<`
always extends exactly to the first later `>` (since `[^>]` cannot consume
a `>`), so the scanners below skip to the first `>` when a match starts and
copy one character and move on when it does not, exactly as `re.sub` does.
The scanners are written as structural recursions (with a small state:
"currently inside a match" or "characters left to skip") so that they
evaluate by `rfl`/`decide`.
-/

/-- A JSON value, as loaded by Python's `json.load`: `null`, booleans,
numbers (embedded as integers), strings, arrays, and objects as ordered
key-value lists. -/
inductive Json where
  | null
  | bool (b : Bool)
  | num (n : Int)
  | str (s : String)
  | arr (items : List Json)
  | obj (fields : List (String × Json))

/-! ## Character classes -/

/-- The whitespace characters relevant to the scripts: the ASCII whitespace
matched by Python's regex `\s` and split/strip defaults, plus the
non-breaking space (produced by `&nbsp;` decoding, and whitespace for
Python's `str.split()`/`str.strip()`). Wider Unicode whitespace never
occurs in the data these scripts handle and is not modelled. -/
def isPySpace (c : Char) : Bool :=
  c = ' ' || c = '\t' || c = '\n' || c = '\r' || c = '\x0b' || c = '\x0c' || c = '\u00A0'

/-! ## Generic tag removal: `re.sub(r'<[^>]+>', '', ...)` (Mode A) and
`re.sub(r'<[^>]*>', '', ...)` (Mode B) -/

/-- Scanner for the generic tag-removal substitutions. State `true` means we
are inside a match and skipping up to (and including) the first `>`.
In state `false`, a `<` starts a match exactly when some `>` follows
(otherwise the regex cannot complete and the `<` is copied); with
`minOne = true` (pattern `<[^>]+>`) a `<` immediately followed by `>`
does not match either. -/
def stripTagsGo (minOne : Bool) : Bool → List Char → List Char
  | _, [] => []
  | true, c :: rest =>
    if c = '>' then stripTagsGo minOne false rest else stripTagsGo minOne true rest
  | false, c :: rest =>
    if c = '<' ∧ '>' ∈ rest ∧ ¬(minOne = true ∧ rest.head? = some '>') then
      stripTagsGo minOne true rest
    else c :: stripTagsGo minOne false rest

/-- `re.sub(r'<[^>]+>', '', text)` when `minOne`, else `re.sub(r'<[^>]*>', '', text)`. -/
def stripTags (minOne : Bool) (cs : List Char) : List Char :=
  stripTagsGo minOne false cs

/-! ## Block-tag substitution: `re.sub(r'<(p|br|li|div|h1|h2|h3|ul)[^>]*>', ' ', ...)`
(Mode A, case-sensitive) and `re.sub(r'<(br|p|li|ul|div)[^>]*>', '\n', ...,
flags=re.IGNORECASE)` (Mode B) -/

/-- Does `c` match the (lowercase) tag character `t`, case-insensitively
when `ci`? -/
def charMatches (ci : Bool) (t c : Char) : Bool :=
  if ci then c.toLower = t else c = t

/-- Does the tag name `t` (lowercase) occur at the start of `cs`
(case-insensitively when `ci`)? -/
def tagStartsAt (ci : Bool) : List Char → List Char → Bool
  | [], _ => true
  | _ :: _, [] => false
  | t :: ts, c :: cs => charMatches ci t c && tagStartsAt ci ts cs

/-- Does one of the alternation's tag names occur at the start of `cs`?
(No tag name in either script's pattern is a prefix of another, so at most
one alternative can match and the alternation order is irrelevant.) -/
def matchesTag (tags : List (List Char)) (ci : Bool) (cs : List Char) : Bool :=
  tags.any (fun t => tagStartsAt ci t cs)

/-- Scanner for the block-tag substitutions: at a `<` followed by a tag name
and (further on) a `>`, emit the replacement character `rep` and skip
through the first `>`; tag names contain no `>`, so any `>` in `rest` lies
at or after the end of the tag name, as in the regex. -/
def blockSubGo (tags : List (List Char)) (ci : Bool) (rep : Char) :
    Bool → List Char → List Char
  | _, [] => []
  | true, c :: rest =>
    if c = '>' then blockSubGo tags ci rep false rest
    else blockSubGo tags ci rep true rest
  | false, c :: rest =>
    if c = '<' ∧ matchesTag tags ci rest = true ∧ '>' ∈ rest then
      rep :: blockSubGo tags ci rep true rest
    else c :: blockSubGo tags ci rep false rest

def blockSub (tags : List (List Char)) (ci : Bool) (rep : Char) (cs : List Char) :
    List Char :=
  blockSubGo tags ci rep false cs

/-- Mode A's block tags (matched case-sensitively). -/
def tagsA : List (List Char) :=
  ["p".data, "br".data, "li".data, "div".data, "h1".data, "h2".data, "h3".data, "ul".data]

/-- Mode B's block tags (matched with `re.IGNORECASE`). -/
def tagsB : List (List Char) :=
  ["br".data, "p".data, "li".data, "ul".data, "div".data]

/-! ## The tab-navigation block removal (Mode A only):
`re.sub(r'<ul class=["]*tabs["]*.*?>.*?</ul>', '', text, flags=re.DOTALL)` -/

/-- Count and drop the leading double quotes (the greedy `["]*`). -/
def dropQuotes : List Char → Nat × List Char
  | '"' :: rest => let p := dropQuotes rest; (p.1 + 1, p.2)
  | cs => (0, cs)

/-- Index of the first `'>'` (the lazy `.*?>` stops at the first `>`). -/
def firstGtIdx : List Char → Option Nat
  | [] => none
  | c :: rest => if c = '>' then some 0 else (firstGtIdx rest).map (· + 1)

/-- Index of the first occurrence of `pat` (the lazy `.*?</ul>` stops at the
first `</ul>`). -/
def findSubIdx (pat : List Char) : List Char → Option Nat
  | [] => none
  | c :: rest =>
    if pat.isPrefixOf (c :: rest) then some 0 else (findSubIdx pat rest).map (· + 1)

/-- Length of the tabs-block match starting at the head of `cs`, if any:
literal `<ul class=`, greedy quotes, literal `tabs`, greedy quotes, lazily
up to the first `>`, then lazily up to the first following `</ul>`.
(If no `</ul>` follows the first `>`, none follows any later `>` either,
so backtracking the lazy `.*?>` cannot rescue the match.) -/
def tabsMatchLen (cs : List Char) : Option Nat :=
  if ("<ul class=".data).isPrefixOf cs then
    let r1 := cs.drop 10
    let q1 := dropQuotes r1
    if ("tabs".data).isPrefixOf q1.2 then
      let r3 := q1.2.drop 4
      let q2 := dropQuotes r3
      match firstGtIdx q2.2 with
      | none => none
      | some p =>
        match findSubIdx ("</ul>".data) (q2.2.drop (p + 1)) with
        | none => none
        | some q => some (10 + q1.1 + 4 + q2.1 + (p + 1) + q + 5)
    else none
  else none

/-- Scanner for the tabs-block removal: `n` is the number of characters of a
match still to skip; a fresh match of length `m ≥ 1` consumes its first
character and leaves `m - 1` to skip. -/
def tabsSubGo : Nat → List Char → List Char
  | n + 1, _ :: rest => tabsSubGo n rest
  | _, [] => []
  | 0, c :: rest =>
    match tabsMatchLen (c :: rest) with
    | some m => tabsSubGo (m - 1) rest
    | none => c :: tabsSubGo 0 rest

def tabsSub (cs : List Char) : List Char := tabsSubGo 0 cs

/-! ## HTML entity decoding: `html.unescape` (Mode A only)

Python's `html.unescape` knows the full HTML5 entity table; the model
covers the named entities product descriptions use, in every spelling
HTML5 defines for them (with and without trailing semicolon, and in the
uppercase forms), longest spelling first, matching Python's
longest-known-prefix lookup. Like Python, the scanner does not re-scan
replacement characters. -/

def entityTable : List (List Char × Char) :=
  [("amp;".data, '&'), ("amp".data, '&'), ("AMP;".data, '&'), ("AMP".data, '&'),
   ("lt;".data, '<'), ("lt".data, '<'), ("LT;".data, '<'), ("LT".data, '<'),
   ("gt;".data, '>'), ("gt".data, '>'), ("GT;".data, '>'), ("GT".data, '>'),
   ("quot;".data, '"'), ("quot".data, '"'), ("QUOT;".data, '"'), ("QUOT".data, '"'),
   ("nbsp;".data, '\u00A0'), ("nbsp".data, '\u00A0')]

/-- The entity (decoded character, length to skip) starting at `cs`, if any. -/
def entityAt (cs : List Char) : Option (Char × Nat) :=
  (entityTable.find? (fun e => e.1.isPrefixOf cs)).map (fun e => (e.2, e.1.length))

def unescapeGo : Nat → List Char → List Char
  | n + 1, _ :: rest => unescapeGo n rest
  | _, [] => []
  | 0, c :: rest =>
    if c = '&' then
      match entityAt rest with
      | some p => p.1 :: unescapeGo p.2 rest
      | none => '&' :: unescapeGo 0 rest
    else c :: unescapeGo 0 rest

def pyUnescape (cs : List Char) : List Char := unescapeGo 0 cs

/-! ## Whitespace cleanup -/

/-- `" ".join(text.split())` (Mode A, step 5): words are maximal runs of
non-whitespace; they are joined by single spaces, dropping all leading and
trailing whitespace. State: 0 = no word seen yet, 1 = inside/just after a
word, 2 = after a word with whitespace seen since. -/
def joinWordsGo : Nat → List Char → List Char
  | _, [] => []
  | st, c :: rest =>
    if isPySpace c then joinWordsGo (if st = 0 then 0 else 2) rest
    else (if st = 2 then [' ', c] else [c]) ++ joinWordsGo 1 rest

def pySplitJoin (cs : List Char) : List Char := joinWordsGo 0 cs

/-- `re.sub(r' +', ' ', text)` (Mode B): collapse runs of spaces to one.
State `true` means the previous character emitted was part of a space run. -/
def spaceCollapseGo : Bool → List Char → List Char
  | _, [] => []
  | inRun, c :: rest =>
    if c = ' ' then
      if inRun then spaceCollapseGo true rest else ' ' :: spaceCollapseGo true rest
    else c :: spaceCollapseGo false rest

def spaceCollapse (cs : List Char) : List Char := spaceCollapseGo false cs

/-- Split a list around its last `'\n'`: `some (b, a)` with
`cs = b ++ '\n' :: a` and no `'\n'` in `a`; `none` when there is none. -/
def splitLastNl : List Char → Option (List Char × List Char)
  | [] => none
  | c :: rest =>
    match splitLastNl rest with
    | some p => some (c :: p.1, p.2)
    | none => if c = '\n' then some ([], rest) else none

/-- `re.sub(r'\n\s*\n+', '\n\n', text)` (Mode B): a match starts at a `\n`
whose following maximal whitespace run contains another `\n`; the greedy
`\s*`/`\n+` pair makes the match end exactly at the last `\n` of that run,
and the whole match is replaced by two newlines. `n` counts characters of a
match still to skip. -/
def blankCollapseGo : Nat → List Char → List Char
  | n + 1, _ :: rest => blankCollapseGo n rest
  | _, [] => []
  | 0, c :: rest =>
    if c = '\n' then
      match splitLastNl (rest.takeWhile isPySpace) with
      | some p => '\n' :: '\n' :: blankCollapseGo (p.1.length + 1) rest
      | none => c :: blankCollapseGo 0 rest
    else c :: blankCollapseGo 0 rest

def blankCollapse (cs : List Char) : List Char := blankCollapseGo 0 cs

/-- Python's `text.strip()`: drop leading and trailing whitespace. -/
def pyStrip (cs : List Char) : List Char :=
  ((cs.dropWhile isPySpace).reverse.dropWhile isPySpace).reverse

/-! ## The two HTML strippers -/

/-- The string pipeline of Mode A's `strip_html` (`json-to-csv_1.py`,
lines 25–46): tabs-block removal, block tags to spaces, generic tag
removal, entity decoding, whitespace-join, strip. -/
def stripHtmlChars (cs : List Char) : List Char :=
  pyStrip (pySplitJoin (pyUnescape (stripTags true (blockSub tagsA false ' ' (tabsSub cs)))))

def stripHtmlStr (s : String) : String := String.mk (stripHtmlChars s.data)

/-- Mode A's `strip_html` on a cell value (the cell may be a pandas `NaN`
for a product missing the column, embedded as `none`): `if not text or not
isinstance(text, str): return ""` guards nulls, empty strings and every
non-string, then the string pipeline runs. -/
def strip_html (cell : Option Json) : String :=
  match cell with
  | some (Json.str s) => if s = "" then "" else stripHtmlStr s
  | _ => ""

/-- The string pipeline of Mode B's `clean_html` (`json-to-csv_2.py`,
lines 16–26): block tags to newlines (case-insensitive), generic tag
removal, space-run collapse, blank-line collapse, strip. No entity
decoding happens in Mode B. -/
def cleanHtmlChars (cs : List Char) : List Char :=
  pyStrip (blankCollapse (spaceCollapse (stripTags false (blockSub tagsB true '\n' cs))))

def cleanHtmlStr (s : String) : String := String.mk (cleanHtmlChars s.data)

/-- Mode B's `clean_html` on a cell value: `if not isinstance(text, str):
return text` passes every non-string (including `None`) through
*unchanged*; strings go through the pipeline. -/
def clean_html : Json → Json
  | Json.str s => Json.str (cleanHtmlStr s)
  | j => j

/-! ## The structure discoverer (`collect_structure` in `analyse-json_2.py`
and `analyse-json_3.py`; both files contain the identical function) -/

/-- Python's `type(data).__name__` for the values `collect_structure` can
see in scalar position. -/
def pyTypeName : Json → String
  | Json.null => "NoneType"
  | Json.bool _ => "bool"
  | Json.num _ => "int"
  | Json.str _ => "str"
  | Json.arr _ => "list"
  | Json.obj _ => "dict"

/-- Python's `str(data)` for scalar values (lists and dicts are handled
before `str` is ever applied, so those branches are unreachable). -/
def pyStr : Json → String
  | Json.null => "None"
  | Json.bool true => "True"
  | Json.bool false => "False"
  | Json.num n => toString n
  | Json.str s => s
  | _ => ""

/-- `example[:97] + "..."` when longer than 100 characters. -/
def truncateExample (s : String) : String :=
  if s.length > 100 then String.mk (s.data.take 97) ++ "..." else s

/-- One row of the diagnostic table: `{"path": ..., "type": ..., "length":
..., "example": ...}` (the `example` field is named `exampleText` here
because `example` is a Lean keyword). -/
structure StructureRecord where
  path : String
  type : String
  length : Option Nat
  exampleText : String
  deriving DecidableEq

/-- `collect_structure(data, path)`: depth-first walk appending records in
order. Dicts recurse into each value with the extended path (emitting
nothing themselves); lists emit one record and recurse into element 0 only
(with path `f"{path}/[0]"`, unconditionally slash-prefixed); scalars emit
one record with the truncated `str` form. -/
def collect_structure : Json → String → List StructureRecord
  | Json.obj fields, path => collectFields fields path
  | Json.arr [], path => [⟨path, "list", some 0, "[]"⟩]
  | Json.arr (x :: xs), path =>
    ⟨path, "list", some (xs.length + 1),
      "[" ++ toString (xs.length + 1) ++ " items]"⟩ ::
      collect_structure x (path ++ "/[0]")
  | j, path => [⟨path, pyTypeName j, none, truncateExample (pyStr j)⟩]
where
  collectFields : List (String × Json) → String → List StructureRecord
  | [], _ => []
  | (k, v) :: rest, path =>
    collect_structure v (if path = "" then k else path ++ "/" ++ k) ++
      collectFields rest path

/-! ## The discoverer's per-file driver (`analyse-json_3.py`, lines 52–92)

A parse failure is modelled as the file content being `none`; every
exception inside the per-file `try` block becomes a caught, logged error
(`Except.error`), and an empty products list is skipped (`Option.none`). -/

/-- Python `len(products)`: defined for lists, strings and dicts;
`TypeError` otherwise. -/
def pyLen : Json → Except Unit Nat
  | Json.arr l => .ok l.length
  | Json.str s => .ok s.length
  | Json.obj fs => .ok fs.length
  | _ => .error ()

/-- Python `products[0]`: first element of a list, first character of a
string; `KeyError` on a dict (JSON object keys are strings, never the
integer 0) and `TypeError` on scalars. -/
def pyIndex0 : Json → Except Unit Json
  | Json.arr (x :: _) => .ok x
  | Json.str s =>
    match s.data with
    | c :: _ => .ok (Json.str (String.mk [c]))
    | [] => .error ()
  | _ => .error ()

/-- One file of `analyse-json_3.py`: extract the products value (dict with
`"products"` → that value; list → itself; anything else → `[data]`), skip
when its length is 0, else collect the structure of `products[0]`.
`Except.error` is the caught-and-logged exception case, `Option.none` the
"no products, skipping" case. -/
def discFile (d : Json) : Except Unit (Option (List StructureRecord)) :=
  let prods : Json :=
    match d with
    | Json.obj fs =>
      match fs.lookup "products" with
      | some v => v
      | none => Json.arr [d]
    | Json.arr l => Json.arr l
    | _ => Json.arr [d]
  match pyLen prods with
  | .error _ => .error ()
  | .ok n =>
    if n = 0 then .ok none
    else
      match pyIndex0 prods with
      | .error _ => .error ()
      | .ok p0 => .ok (some (collect_structure p0 ""))

/-- The discoverer's multi-file loop: the whole per-file body sits inside
`try/except Exception`, so each file (malformed or not) yields exactly one
entry and processing always continues. -/
def processFiles3 : List (Option Json) → List (Except Unit (Option (List StructureRecord)))
  | [] => []
  | none :: rest => .error () :: processFiles3 rest
  | some d :: rest => discFile d :: processFiles3 rest

/-! ## Mode A: `json-to-csv_1.py` (one row per product) -/

/-- `pd.json_normalize`'s flattening of one record (`nested_to_record`):
nested dicts become dotted column names, all other values (including
lists) are kept whole. (pandas moves a flattened nested key to the end of
the record's key order; the embedding keeps it in place. Downstream code
reads cells by name only and Mode B reorders columns explicitly at the
end, so nothing observes the difference.) -/
def normFields : List (String × Json) → List (String × Json)
  | [] => []
  | (k, v) :: rest => normEntry k v ++ normFields rest
where
  normEntry (k : String) : Json → List (String × Json)
  | Json.obj gs => (normFields gs).map (fun kv => (k ++ "." ++ kv.1, kv.2))
  | v => [(k, v)]

/-- `col.replace('.', '_')` — for the single-character pattern this is a
character-wise map. -/
def renCh (c : Char) : Char := if c = '.' then '_' else c

def renameKey (s : String) : String := String.mk (s.data.map renCh)

/-- `df.columns = [col.replace('.', '_') for col in df.columns]`. -/
def renCols (l : List (String × Json)) : List (String × Json) :=
  l.map (fun kv => (renameKey kv.1, kv.2))

/-- The flattened, renamed fields of one product row (products are dicts;
`json_normalize` rejects anything else before this point). -/
def rowFields : Json → List (String × Json)
  | Json.obj fs => renCols (normFields fs)
  | _ => []

/-- The cell of product `p` in column `c`: `none` is pandas `NaN` (the
product lacks the column). -/
def cellA (p : Json) (c : String) : Option Json := (rowFields p).lookup c

/-- `c in df.columns`: some product contributes the column. -/
def hasColumnA (ps : List Json) (c : String) : Bool :=
  ps.any (fun p => ((rowFields p).map Prod.fst).contains c)

def isObj : Json → Bool
  | Json.obj _ => true
  | _ => false

/-- Python truthiness of a JSON value (`if not products: continue`). -/
def pyTruthy : Json → Bool
  | Json.null => false
  | Json.bool b => b
  | Json.num n => n != 0
  | Json.str s => s != ""
  | Json.arr l => !l.isEmpty
  | Json.obj fs => !fs.isEmpty

/-- Python `v[k]` on a JSON value: field of a dict (`KeyError` when
absent), `TypeError` on anything else. -/
def pyIndexStr (v : Json) (k : String) : Except Unit Json :=
  match v with
  | Json.obj fs =>
    match fs.lookup k with
    | some x => .ok x
    | none => .error ()
  | _ => .error ()

/-- `x[0][k] if isinstance(x, list) and x else None` applied to a cell:
`None` for `NaN`, non-lists and empty lists; otherwise the field of the
first element (raising when the first element lacks it or is no dict). -/
def mainField (cell : Option Json) (k : String) : Except Unit (Option Json) :=
  match cell with
  | some (Json.arr (v :: _)) => (pyIndexStr v k).map some
  | _ => .ok none

/-- `len(x) if isinstance(x, list) else 0` applied to a cell. -/
def listLenOr0 (cell : Option Json) : Nat :=
  match cell with
  | some (Json.arr l) => l.length
  | _ => 0

structure ModeARow where
  fields : List (String × Json)
  description_plain : Option String
  images_count : Nat
  variants_count : Nat
  main_price : Option Json
  main_sku : Option Json
  available : Option Json

def exceptTraverse {α β : Type} (f : α → Except Unit β) : List α → Except Unit (List β)
  | [] => .ok []
  | a :: rest =>
    match f a with
    | .error _ => .error ()
    | .ok b =>
      match exceptTraverse f rest with
      | .error _ => .error ()
      | .ok bs => .ok (b :: bs)

/-- One Mode A row (`json-to-csv_1.py`, lines 70–84): the flattened
product fields, `description_plain` when the `body_html` column exists,
and the five derived columns. -/
def rowA (hasBody : Bool) (p : Json) : Except Unit ModeARow :=
  match mainField (cellA p "variants") "price" with
  | .error _ => .error ()
  | .ok mp =>
    match mainField (cellA p "variants") "sku" with
    | .error _ => .error ()
    | .ok ms =>
      match mainField (cellA p "variants") "available" with
      | .error _ => .error ()
      | .ok ma =>
        .ok
          { fields := rowFields p
            description_plain :=
              if hasBody then some (strip_html (cellA p "body_html")) else none
            images_count := listLenOr0 (cellA p "images")
            variants_count := listLenOr0 (cellA p "variants")
            main_price := mp
            main_sku := ms
            available := ma }

/-- The Mode A table for a products list: `json_normalize` requires dict
records; `df['images']` / `df['variants']` raise `KeyError` when no product
contributes the column. (pandas evaluates the five derived columns
column-by-column rather than row-by-row; with the error value being `Unit`,
the `Except` result is the same either way.) -/
def modeADerived (ps : List Json) : Except Unit (List ModeARow) :=
  if ps.all isObj ∧ hasColumnA ps "images" = true ∧ hasColumnA ps "variants" = true then
    exceptTraverse (rowA (hasColumnA ps "body_html")) ps
  else .error ()

/-- The top-level shape dispatch (`json-to-csv_1.py`, lines 57–64):
dict containing `"products"` → that value; list → itself; anything else →
warn and skip (`none`). -/
def extractA : Json → Option Json
  | Json.obj fs => fs.lookup "products"
  | Json.arr l => some (Json.arr l)
  | _ => none

/-- One file of Mode A: shape dispatch, the `if not products: continue`
falsiness skip, then the table. A truthy non-list, non-dict products value
reaches `json_normalize`, which raises on scalars and treats a dict as a
single record. `Option.none` = the file was skipped with a message. -/
def modeAFile (d : Json) : Except Unit (Option (List ModeARow)) :=
  match extractA d with
  | none => .ok none
  | some prods =>
    if pyTruthy prods = false then .ok none
    else
      match prods with
      | Json.arr l => (modeADerived l).map some
      | Json.obj fs => (modeADerived [Json.obj fs]).map some
      | _ => .error ()

/-- Mode A's multi-file loop has no `try/except`: a malformed file
(`none`) or any in-file exception aborts the whole run. -/
def processFiles1 : List (Option Json) → Except Unit (List (Option (List ModeARow)))
  | [] => .ok []
  | none :: _ => .error ()
  | some d :: rest =>
    match modeAFile d with
    | .error _ => .error ()
    | .ok r =>
      match processFiles1 rest with
      | .error _ => .error ()
      | .ok rs => .ok (r :: rs)

/-! ## Mode B: `json-to-csv_2.py` (one row per variant) -/

/-- The `meta` argument of the `pd.json_normalize` call. -/
def metaKeysB : List String := ["title", "vendor", "handle", "body_html"]

/-- The fixed output schema (`column_order`, `json-to-csv_2.py` lines 50–56). -/
def column_order : List String :=
  ["variant_id", "variant_title", "variant_option1", "variant_option2", "variant_option3",
   "variant_sku", "variant_requires_shipping", "variant_taxable", "variant_featured_image",
   "variant_available", "variant_price", "variant_grams", "variant_compare_at_price",
   "variant_position", "variant_product_id", "variant_created_at", "variant_updated_at",
   "title", "vendor", "handle", "description"]

/-- A finished Mode B row: every column of `column_order` paired with its
cell (`none` = pandas `NaN`). -/
abbrev RowB := List (String × Option Json)

/-- pandas `_pull_records` for `record_path=['variants']`: a missing key
raises `KeyError` regardless of the `errors` setting; a null value becomes
an empty record list; a non-list, non-null value raises `TypeError`;
non-dict data raises. -/
def pullRecords : Json → Except Unit (List Json)
  | Json.obj fs =>
    match fs.lookup "variants" with
    | none => .error ()
    | some Json.null => .ok []
    | some (Json.arr l) => .ok l
    | some _ => .error ()
  | _ => .error ()

/-- pandas `_pull_field` for a meta key with the default `errors='raise'`:
a missing key raises `KeyError`. -/
def pullMeta (p : Json) (k : String) : Except Unit Json :=
  match p with
  | Json.obj fs =>
    match fs.lookup k with
    | some v => .ok v
    | none => .error ()
  | _ => .error ()

/-- One variant record's cells: flattened (`nested_to_record`) and prefixed
with `record_prefix='variant_'`. pandas builds a degenerate frame for a
non-dict record; variants are always dicts in this data and no claim
touches that corner, so it is embedded as an error. -/
def variantCells (v : Json) : Except Unit (List (String × Json)) :=
  match v with
  | Json.obj gs => .ok ((normFields gs).map (fun kv => ("variant_" ++ kv.1, kv.2)))
  | _ => .error ()

/-- The pre-rows one product contributes to the `json_normalize` result:
one row per variant, each carrying the four meta columns. -/
def modeBPreRows (p : Json) : Except Unit (List (List (String × Json))) :=
  match pullRecords p with
  | .error _ => .error ()
  | .ok recs =>
    match exceptTraverse variantCells recs with
    | .error _ => .error ()
    | .ok cells =>
      match exceptTraverse (fun k => (pullMeta p k).map (fun v => (k, v))) metaKeysB with
      | .error _ => .error ()
      | .ok metas => .ok (cells.map (fun cl => cl ++ metas))

/-- `df['description'] = df['body_html'].apply(clean_html)` followed by
`df.drop(columns=['body_html'])`, on one row. Every row carries a
`body_html` cell (it is a meta column), pulled before `clean_html` runs. -/
def postRow (row : List (String × Json)) : List (String × Json) :=
  (row.filter (fun kv => kv.1 != "body_html")) ++
    [("description", clean_html ((row.lookup "body_html").getD Json.null))]

/-- The normalized, cleaned rows of one file's products list. -/
def modeBRawRows (ps : List Json) : Except Unit (List (List (String × Json))) :=
  (exceptTraverse modeBPreRows ps).map (fun pls => pls.flatten.map postRow)

/-- `c in df.columns` for the cleaned frame: some row carries the cell. -/
def colPresent (rows : List (List (String × Json))) (c : String) : Bool :=
  rows.any (fun r => (r.map Prod.fst).contains c)

/-- The fill-and-reorder step (`json-to-csv_2.py` lines 58–63): every missing column is
added filled with `""`, then the frame is reordered (and restricted) to
`column_order`. -/
def finalize (rows : List (List (String × Json))) : List RowB :=
  rows.map (fun r =>
    column_order.map (fun c =>
      (c, if colPresent rows c then r.lookup c else some (Json.str ""))))

/-- `data['products']` then `json_normalize`'s treatment of the first
argument: a bare list raises `TypeError` (list indices must be integers),
a dict without `"products"` raises `KeyError`; the products value must be
a list (a dict is wrapped as a single record; scalars raise). -/
def modeBProducts (data : Json) : Except Unit (List Json) :=
  match data with
  | Json.obj fs =>
    match fs.lookup "products" with
    | some (Json.arr l) => .ok l
    | some (Json.obj gs) => .ok [Json.obj gs]
    | some _ => .error ()
    | none => .error ()
  | _ => .error ()

/-- One file of Mode B. An empty products list makes `json_normalize`
return an empty frame with no columns, so `df['body_html']` raises
`KeyError`; a non-empty list always yields the meta columns, so the
`body_html` access succeeds even when every variants list is empty. -/
def modeBFile (data : Json) : Except Unit (List RowB) :=
  match modeBProducts data with
  | .error _ => .error ()
  | .ok ps =>
    if ps.isEmpty then .error ()
    else
      match modeBRawRows ps with
      | .error _ => .error ()
      | .ok raw => .ok (finalize raw)

/-- Mode B's multi-file loop has no `try/except` at all: any per-file
exception (malformed JSON included) aborts the whole run. -/
def processFiles2 : List (Option Json) → Except Unit (List (List RowB))
  | [] => .ok []
  | none :: _ => .error ()
  | some d :: rest =>
    match modeBFile d with
    | .error _ => .error ()
    | .ok r =>
      match processFiles2 rest with
      | .error _ => .error ()
      | .ok rs => .ok (r :: rs)

/-! ## Spec-side descriptions (for comparison with the code's behaviour)

These four definitions follow the specification's own words for the Mode A
derived columns ("length of the `images` list or 0 if absent/not a list",
"fields of `variants[0]` or null if `variants` is empty/absent"), stated
directly on the product's fields; the refinement theorems below compare
them with what the embedded code computes. -/

/-- Direct field access on a product mapping. -/
def lookupField : Json → String → Option Json
  | Json.obj fs, k => fs.lookup k
  | _, _ => none

/-- Modelled from the spec: `images_count` = "length of `images` list or 0
if absent/not a list". -/
def specImagesCount (p : Json) : Nat :=
  match lookupField p "images" with
  | some (Json.arr l) => l.length
  | _ => 0

/-- Modelled from the spec: `variants_count` = "length of `variants` list
or 0". -/
def specVariantsCount (p : Json) : Nat :=
  match lookupField p "variants" with
  | some (Json.arr l) => l.length
  | _ => 0

/-- Modelled from the spec: "`main_price`, `main_sku`, `available` =
corresponding fields of `variants[0]` or null if `variants` is
empty/absent". -/
def specMainField (p : Json) (k : String) : Option Json :=
  match lookupField p "variants" with
  | some (Json.arr (v :: _)) => lookupField v k
  | _ => none

/-! ## HTML-tag shaped substrings -/

/-- Does `cs` contain a substring of the form `<`, one or more
non-`>` characters, `>`? Equivalently (see `hasTag_of_decomp`): some `<`
is followed by a later `>`, the first of which is not adjacent to it. -/
def hasTag : List Char → Bool
  | [] => false
  | c :: rest =>
    decide (c = '<' ∧ '>' ∈ rest ∧ rest.head? ≠ some '>') || hasTag rest

/-- No `<` anywhere in `cs` is followed (anywhere later) by a `>`. -/
def noLtGt : List Char → Bool
  | [] => true
  | c :: rest => decide (c = '<' → '>' ∉ rest) && noLtGt rest

/-! ## Lemmas: the generic tag removal leaves no `<` followed by a `>` -/

theorem stripTagsGo_subset (m : Bool) : ∀ (st : Bool) (cs : List Char) (x : Char),
    x ∈ stripTagsGo m st cs → x ∈ cs := by
  intro st cs
  induction cs generalizing st with
  | nil => intro x h; cases st <;> simp [stripTagsGo] at h
  | cons c rest ih =>
    intro x h
    cases st with
    | true =>
      by_cases hc : c = '>'
      · simp only [stripTagsGo, if_pos hc] at h
        exact List.mem_cons_of_mem _ (ih false x h)
      · simp only [stripTagsGo, if_neg hc] at h
        exact List.mem_cons_of_mem _ (ih true x h)
    | false =>
      by_cases hcond : c = '<' ∧ '>' ∈ rest ∧ ¬(m = true ∧ rest.head? = some '>')
      · simp only [stripTagsGo, if_pos hcond] at h
        exact List.mem_cons_of_mem _ (ih true x h)
      · simp only [stripTagsGo, if_neg hcond] at h
        rcases List.mem_cons.mp h with h1 | h2
        · exact h1 ▸ List.mem_cons_self c rest
        · exact List.mem_cons_of_mem _ (ih false x h2)

/-- With the `<[^>]*>` pattern (Mode B), every `<` surviving the generic
tag removal has no `>` anywhere after it. -/
theorem noLtGt_stripTagsGo : ∀ (st : Bool) (cs : List Char),
    noLtGt (stripTagsGo false st cs) = true := by
  intro st cs
  induction cs generalizing st with
  | nil => cases st <;> simp [stripTagsGo, noLtGt]
  | cons c rest ih =>
    cases st with
    | true =>
      by_cases hc : c = '>'
      · simp only [stripTagsGo, if_pos hc]; exact ih false
      · simp only [stripTagsGo, if_neg hc]; exact ih true
    | false =>
      by_cases hcond : c = '<' ∧ '>' ∈ rest
      · have hcond' : c = '<' ∧ '>' ∈ rest ∧ ¬(false = true ∧ rest.head? = some '>') :=
          ⟨hcond.1, hcond.2, by simp⟩
        simp only [stripTagsGo, if_pos hcond']
        exact ih true
      · have hcond' : ¬(c = '<' ∧ '>' ∈ rest ∧ ¬(false = true ∧ rest.head? = some '>')) := by
          intro hx; exact hcond ⟨hx.1, hx.2.1⟩
        simp only [stripTagsGo, if_neg hcond']
        simp only [noLtGt, Bool.and_eq_true, decide_eq_true_eq]
        refine ⟨fun hlt hmem => ?_, ih false⟩
        exact hcond ⟨hlt, stripTagsGo_subset false false rest '>' hmem⟩

/-- `noLtGt` is inherited by sublists. -/
theorem noLtGt_sublist : ∀ {t s : List Char}, List.Sublist t s →
    noLtGt s = true → noLtGt t = true := by
  intro t s h
  induction h with
  | slnil => intro _; rfl
  | cons a h ih =>
    intro hs
    simp only [noLtGt, Bool.and_eq_true] at hs
    exact ih hs.2
  | cons₂ a h ih =>
    intro hs
    simp only [noLtGt, Bool.and_eq_true, decide_eq_true_eq] at hs ⊢
    exact ⟨fun hlt hmem => hs.1 hlt (h.subset hmem), ih hs.2⟩

theorem hasTag_eq_false_of_noLtGt : ∀ {cs : List Char},
    noLtGt cs = true → hasTag cs = false := by
  intro cs
  induction cs with
  | nil => intro _; rfl
  | cons c rest ih =>
    intro h
    simp only [noLtGt, Bool.and_eq_true, decide_eq_true_eq] at h
    simp only [hasTag, Bool.or_eq_false_iff, decide_eq_false_iff_not]
    refine ⟨fun hx => h.1 hx.1 hx.2.1, ih h.2⟩

/-- A tag-shaped substring (a `<`, one or more non-`>` characters, then a
`>`) makes `hasTag` true: `hasTag = false` really means "no tag-shaped
substring". -/
theorem hasTag_of_decomp : ∀ (pre mid post : List Char), mid ≠ [] → '>' ∉ mid →
    hasTag (pre ++ '<' :: (mid ++ '>' :: post)) = true := by
  intro pre
  induction pre with
  | nil =>
    intro mid post hne hgt
    cases mid with
    | nil => exact absurd rfl hne
    | cons m0 mid' =>
      have hm0 : m0 ≠ '>' := fun h => hgt (h ▸ List.mem_cons_self m0 mid')
      simp [hasTag, hm0]
  | cons p pre' ih =>
    intro mid post hne hgt
    simp only [List.cons_append, hasTag, Bool.or_eq_true]
    exact Or.inr (ih mid post hne hgt)

/-! ## Lemmas: the whitespace-cleanup passes only delete characters
(or rewrite whitespace runs to newlines they already contain), so they are
sublist maps -/

theorem spaceCollapseGo_sublist : ∀ (st : Bool) (cs : List Char),
    List.Sublist (spaceCollapseGo st cs) cs := by
  intro st cs
  induction cs generalizing st with
  | nil => cases st <;> simp [spaceCollapseGo]
  | cons c rest ih =>
    by_cases hc : c = ' '
    · subst hc
      cases st with
      | true => simp only [spaceCollapseGo, if_pos rfl, if_true]; exact (ih true).cons ' '
      | false =>
        simp only [spaceCollapseGo, if_pos rfl]
        exact (ih true).cons₂ ' '
    · cases st <;>
        (simp only [spaceCollapseGo, if_neg hc]; exact (ih false).cons₂ c)

theorem splitLastNl_none : ∀ {cs : List Char}, splitLastNl cs = none → '\n' ∉ cs := by
  intro cs
  induction cs with
  | nil => intro _; simp
  | cons c rest ih =>
    intro h hmem
    simp only [splitLastNl] at h
    cases hr : splitLastNl rest with
    | some p => rw [hr] at h; simp at h
    | none =>
      rw [hr] at h
      by_cases hc : c = '\n'
      · rw [if_pos hc] at h; simp at h
      · rw [if_neg hc] at h
        rcases List.mem_cons.mp hmem with h1 | h2
        · exact hc h1.symm
        · exact ih hr h2

theorem splitLastNl_some : ∀ {cs b a : List Char}, splitLastNl cs = some (b, a) →
    cs = b ++ '\n' :: a ∧ '\n' ∉ a := by
  intro cs
  induction cs with
  | nil => intro b a h; simp [splitLastNl] at h
  | cons c rest ih =>
    intro b a h
    simp only [splitLastNl] at h
    cases hr : splitLastNl rest with
    | some p =>
      rw [hr] at h
      simp only [Option.some.injEq, Prod.mk.injEq] at h
      obtain ⟨hb, ha⟩ := h
      obtain ⟨h1, h2⟩ := ih (b := p.1) (a := p.2) (by rw [hr])
      subst hb
      exact ⟨by rw [List.cons_append, ← ha, ← h1], ha ▸ h2⟩
    | none =>
      rw [hr] at h
      by_cases hc : c = '\n'
      · rw [if_pos hc] at h
        simp only [Option.some.injEq, Prod.mk.injEq] at h
        obtain ⟨hb, ha⟩ := h
        subst hc
        rw [← hb, ← ha]
        exact ⟨rfl, splitLastNl_none hr⟩
      · rw [if_neg hc] at h; simp at h

theorem blankCollapseGo_drop : ∀ (n : Nat) (cs : List Char),
    blankCollapseGo n cs = blankCollapseGo 0 (cs.drop n) := by
  intro n
  induction n with
  | zero => intro cs; rw [List.drop_zero]
  | succ k ih =>
    intro cs
    cases cs with
    | nil => simp [blankCollapseGo]
    | cons c rest => simp only [blankCollapseGo, List.drop_succ_cons]; exact ih rest

theorem blankCollapseGo_zero_sublist : ∀ (n : Nat) (cs : List Char), cs.length ≤ n →
    List.Sublist (blankCollapseGo 0 cs) cs := by
  intro n
  induction n with
  | zero =>
    intro cs h
    rw [List.length_eq_zero.mp (Nat.le_zero.mp h)]
    simp [blankCollapseGo]
  | succ k ih =>
    intro cs hlen
    cases cs with
    | nil => simp [blankCollapseGo]
    | cons c rest =>
      by_cases hc : c = '\n'
      · subst hc
        cases hs : splitLastNl (rest.takeWhile isPySpace) with
        | none =>
          have heq : blankCollapseGo 0 ('\n' :: rest) = '\n' :: blankCollapseGo 0 rest := by
            simp [blankCollapseGo, hs]
          rw [heq]
          simp only [List.length_cons] at hlen
          exact ((ih rest (by omega)).cons₂ '\n')
        | some p =>
          have heq : blankCollapseGo 0 ('\n' :: rest)
              = '\n' :: '\n' :: blankCollapseGo (p.1.length + 1) rest := by
            simp [blankCollapseGo, hs]
          rw [heq]
          obtain ⟨h1, _⟩ := splitLastNl_some hs
          have hsplit : rest = p.1 ++ '\n' :: (p.2 ++ rest.dropWhile isPySpace) := by
            conv_lhs => rw [← List.takeWhile_append_dropWhile (p := isPySpace) (l := rest)]
            rw [h1, List.append_assoc, List.cons_append]
          have hdrop : rest.drop (p.1.length + 1) = p.2 ++ rest.dropWhile isPySpace := by
            conv_lhs => rw [hsplit]
            rw [show p.1.length + 1 = (p.1 ++ ['\n']).length by simp]
            rw [show p.1 ++ '\n' :: (p.2 ++ rest.dropWhile isPySpace)
                  = (p.1 ++ ['\n']) ++ (p.2 ++ rest.dropWhile isPySpace) by simp]
            exact List.drop_left _ _
          rw [blankCollapseGo_drop (p.1.length + 1) rest, hdrop]
          have hlen2 : (p.2 ++ rest.dropWhile isPySpace).length ≤ k := by
            have hr : rest.length ≤ k := by
              simp only [List.length_cons] at hlen; omega
            have hsum : rest.length
                = p.1.length + 1 + (p.2 ++ rest.dropWhile isPySpace).length := by
              conv_lhs => rw [hsplit]
              simp
              omega
            omega
          have hsub := ih (p.2 ++ rest.dropWhile isPySpace) hlen2
          have step2 : List.Sublist ('\n' :: (p.2 ++ rest.dropWhile isPySpace)) rest := by
            conv_rhs => rw [hsplit]
            exact List.sublist_append_right p.1 _
          exact List.Sublist.cons₂ '\n' ((hsub.cons₂ '\n').trans step2)
      · have heq : blankCollapseGo 0 (c :: rest) = c :: blankCollapseGo 0 rest := by
          simp [blankCollapseGo, hc]
        rw [heq]
        simp only [List.length_cons] at hlen
        exact ((ih rest (by omega)).cons₂ c)

theorem blankCollapse_sublist (cs : List Char) : List.Sublist (blankCollapse cs) cs :=
  blankCollapseGo_zero_sublist cs.length cs (Nat.le_refl _)

theorem pyStrip_sublist (cs : List Char) : List.Sublist (pyStrip cs) cs := by
  unfold pyStrip
  have h1 : List.Sublist (cs.dropWhile isPySpace) cs := List.dropWhile_sublist isPySpace
  have h2 : List.Sublist ((cs.dropWhile isPySpace).reverse.dropWhile isPySpace)
      (cs.dropWhile isPySpace).reverse := List.dropWhile_sublist isPySpace
  have h3 := h2.reverse
  rw [List.reverse_reverse] at h3
  exact h3.trans h1

/-- The central Mode B invariant: the cleaned text contains no `<` that is
followed anywhere later by a `>` — the generic tag removal establishes it
and the whitespace passes (sublists of their input up to replacing
whitespace runs by newlines they already contain) preserve it. -/
theorem noLtGt_cleanHtmlChars (cs : List Char) : noLtGt (cleanHtmlChars cs) = true := by
  unfold cleanHtmlChars stripTags
  have h0 := noLtGt_stripTagsGo false (blockSub tagsB true '\n' cs)
  have h1 := noLtGt_sublist (spaceCollapseGo_sublist false _) h0
  have h2 := noLtGt_sublist (blankCollapse_sublist _) h1
  exact noLtGt_sublist (pyStrip_sublist _) h2

/-! ## Predicates used by the stripper claims -/

/-- Is the cell a string? (pandas cells: `none` is `NaN`.) -/
def isStrCell : Option Json → Bool
  | some (Json.str _) => true
  | _ => false

def isStrJson : Json → Bool
  | Json.str _ => true
  | _ => false

/-! ## Claim C10 -/

/-- C10: Mode A's block-tag-to-space conversion matches only lowercase tag
names, while Mode B's matches block tags case-insensitively: on
`"<P>Hello</P><P>World</P>"` Mode A removes the uppercase tags via the
generic pattern without inserting any separator and returns `"HelloWorld"`,
whereas the same input with lowercase tags returns `"Hello World"`; Mode B
produces the same output for both spellings. -/
theorem c10_block_tag_case :
    stripHtmlStr "<P>Hello</P><P>World</P>" = "HelloWorld" ∧
    stripHtmlStr "<p>Hello</p><p>World</p>" = "Hello World" ∧
    cleanHtmlStr "<P>Hello</P><P>World</P>" = cleanHtmlStr "<p>Hello</p><p>World</p>" ∧
    cleanHtmlStr "<P>Hello</P><P>World</P>" = "Hello\nWorld" :=
  ⟨by decide, by decide, by decide, by decide⟩

/-! ## Claim C5 -/

/-- C5 counterexample: the claim says the stripper in *both* modes decodes
HTML entities, in particular turning `"A &amp; B"` into `"A & B"`; Mode B's
`clean_html` contains no entity decoding step and returns `"A &amp; B"`
unchanged. -/
theorem c5_counterexample :
    clean_html (Json.str "A &amp; B") = Json.str "A &amp; B" ∧
    clean_html (Json.str "A &amp; B") ≠ Json.str "A & B" := by
  refine ⟨rfl, fun h => ?_⟩
  rw [show clean_html (Json.str "A &amp; B") = Json.str "A &amp; B" from rfl] at h
  exact absurd (Json.str.inj h) (by decide)

/-- C5 amended: only Mode A's stripper decodes HTML entities (for example
the ampersand and the non-breaking space, which the final whitespace join
then turns into a plain space); Mode B's stripper leaves entity codes
as-is. -/
theorem c5_amended :
    stripHtmlStr "A &amp; B" = "A & B" ∧
    stripHtmlStr "A&nbsp;B" = "A B" ∧
    cleanHtmlStr "A &amp; B" = "A &amp; B" :=
  ⟨by decide, by decide, by decide⟩

/-! ## Claim C6 -/

/-- C6 counterexample: the claim says stripper output never contains a
substring of the form `<`, one or more non-`>` characters, `>`; Mode A's
entity decoding runs *after* tag removal, so
`strip_html("&lt;b&gt;") = "<b>"`, which is exactly such a substring. -/
theorem c6_counterexample :
    stripHtmlStr "&lt;b&gt;" = "<b>" ∧
    hasTag (stripHtmlStr "&lt;b&gt;").data = true :=
  ⟨by decide, by decide⟩

/-- C6 amended: Mode B's cleaned text never contains a tag-shaped substring
(`<`, one or more non-`>` characters, `>`); in Mode A the entity decoding
step can reintroduce one (see the counterexample). -/
theorem c6_amended (s : String) (pre mid post : List Char)
    (hmid : mid ≠ []) (hgt : '>' ∉ mid) :
    (cleanHtmlStr s).data ≠ pre ++ '<' :: (mid ++ '>' :: post) := by
  intro h
  have h1 := hasTag_of_decomp pre mid post hmid hgt
  rw [← h] at h1
  rw [show (cleanHtmlStr s).data = cleanHtmlChars s.data from rfl] at h1
  rw [hasTag_eq_false_of_noLtGt (noLtGt_cleanHtmlChars s.data)] at h1
  exact Bool.false_ne_true h1

theorem c6_amended_witness :
    (cleanHtmlStr "a<p>b").data ≠ [] ++ '<' :: (['b'] ++ '>' :: []) :=
  c6_amended "a<p>b" [] ['b'] [] (by decide) (by decide)

/-! ## Claim C7 -/

/-- C7 counterexample: the claim says both strippers return the empty
string for null input; Mode B's `clean_html` returns every non-string
input unchanged, so `clean_html(None)` is `None`, not `""`. -/
theorem c7_counterexample : clean_html Json.null ≠ Json.str "" := by
  intro h
  exact Json.noConfusion (show Json.null = Json.str "" from h)

/-- C7 amended: Mode A's stripper returns `""` for null (NaN), for the
empty string and for every non-string input; Mode B's stripper returns
`""` for the empty string but passes null and every other non-string input
through unchanged. -/
theorem c7_amended :
    strip_html none = "" ∧ strip_html (some (Json.str "")) = "" ∧
    (∀ v : Option Json, isStrCell v = false → strip_html v = "") ∧
    clean_html (Json.str "") = Json.str "" ∧
    (∀ j : Json, isStrJson j = false → clean_html j = j) := by
  refine ⟨rfl, rfl, ?_, rfl, ?_⟩
  · intro v hv
    match v with
    | none => rfl
    | some Json.null => rfl
    | some (Json.bool _) => rfl
    | some (Json.num _) => rfl
    | some (Json.str _) => simp [isStrCell] at hv
    | some (Json.arr _) => rfl
    | some (Json.obj _) => rfl
  · intro j hj
    match j with
    | Json.null => rfl
    | Json.bool _ => rfl
    | Json.num _ => rfl
    | Json.str _ => simp [isStrJson] at hj
    | Json.arr _ => rfl
    | Json.obj _ => rfl

theorem c7_amended_witness :
    strip_html (some (Json.num 3)) = "" ∧ clean_html (Json.num 3) = Json.num 3 :=
  ⟨c7_amended.2.2.1 (some (Json.num 3)) rfl, c7_amended.2.2.2.2 (Json.num 3) rfl⟩

/-! ## Claim C9 -/

/-- C9: for every non-empty list value and base path, the discoverer emits
exactly one List record (with `length` = the list's length and example
`"[N items]"`) followed by the records of the first element under path
`basePath/[0]`, and never visits later elements: two lists of equal length
with equal first elements produce identical record sequences. -/
theorem c9_list_first_element (x : Json) (xs : List Json) (p : String) :
    collect_structure (Json.arr (x :: xs)) p =
      ⟨p, "list", some (xs.length + 1),
        "[" ++ toString (xs.length + 1) ++ " items]"⟩ ::
        collect_structure x (p ++ "/[0]") ∧
    ∀ (y : Json) (ys : List Json), (x :: xs).length = (y :: ys).length → x = y →
      collect_structure (Json.arr (x :: xs)) p = collect_structure (Json.arr (y :: ys)) p := by
  constructor
  · rfl
  · intro y ys hlen heq
    subst heq
    have hlen' : xs.length = ys.length := by simpa using hlen
    simp [collect_structure, hlen']

theorem c9_witness :
    collect_structure (Json.arr [Json.num 1, Json.num 2]) "p" =
      collect_structure (Json.arr [Json.num 1, Json.num 3]) "p" :=
  (c9_list_first_element (Json.num 1) [Json.num 2] "p").2 (Json.num 1) [Json.num 3] rfl rfl

/-! ## Claim C3 -/

/-- C3 counterexample: the claim says a malformed file is skipped and
processing continues in all three batch scripts; in Mode A and Mode B the
file loops have no `try/except` around `json.load`, so a malformed first
file aborts the run and the following (well-formed) file is never
processed. -/
theorem c3_counterexample :
    processFiles1 [none,
      some (Json.obj [("products",
        Json.arr [Json.obj [("images", Json.arr []), ("variants", Json.arr [])]])])]
      = .error () ∧
    processFiles2 [none,
      some (Json.obj [("products",
        Json.arr [Json.obj [("title", Json.str "t"), ("vendor", Json.str "v"),
          ("handle", Json.str "h"), ("body_html", Json.str ""),
          ("variants", Json.arr [])]])])]
      = .error () :=
  ⟨rfl, rfl⟩

/-- C3 amended: only the discoverer (`analyse-json_3.py`) catches per-file
errors: every file yields exactly one report entry, a malformed file
yields exactly one error entry with the files around it processed
normally, and no file aborts the run. Mode A (`json-to-csv_1.py`) skips a
file of unexpected top-level shape and continues, but a malformed file
aborts its whole run; in Mode B (`json-to-csv_2.py`) any bad file aborts
the run (see the counterexample). -/
theorem c3_amended :
    (∀ fs : List (Option Json), (processFiles3 fs).length = fs.length) ∧
    (∀ pre post : List (Option Json),
      processFiles3 (pre ++ none :: post) =
        processFiles3 pre ++ .error () :: processFiles3 post) ∧
    (∀ (d : Json) (rest : List (Option Json)), extractA d = none →
      processFiles1 (some d :: rest) =
        (processFiles1 rest).map (fun rs => none :: rs)) := by
  refine ⟨?_, ?_, ?_⟩
  · intro fs
    induction fs with
    | nil => rfl
    | cons f rest ih =>
      cases f <;> simp [processFiles3, ih]
  · intro pre post
    induction pre with
    | nil => rfl
    | cons f rest ih =>
      cases f <;> simp [processFiles3, ih]
  · intro d rest hd
    have hfile : modeAFile d = .ok none := by
      unfold modeAFile
      rw [hd]
    simp only [processFiles1, hfile]
    cases processFiles1 rest <;> simp [Except.map]

theorem c3_amended_witness :
    processFiles1 [some (Json.str "nonsense")] = .ok [none] :=
  c3_amended.2.2 (Json.str "nonsense") [] rfl

/-! ## Claim C4 -/

/-- C4 counterexample: the claim says both flattener modes accept a bare
list of products; Mode B accesses `data['products']` unconditionally, so a
bare list raises `TypeError` where the equivalent wrapped input succeeds —
the bare list produces no rows at all, not the same rows. -/
theorem c4_counterexample :
    (modeBFile (Json.arr [Json.obj [("title", Json.str "t"), ("vendor", Json.str "v"),
      ("handle", Json.str "h"), ("body_html", Json.str ""),
      ("variants", Json.arr [Json.obj [("price", Json.str "1")]])]])).isOk = false ∧
    (modeBFile (Json.obj [("products", Json.arr [Json.obj [("title", Json.str "t"),
      ("vendor", Json.str "v"), ("handle", Json.str "h"), ("body_html", Json.str ""),
      ("variants", Json.arr [Json.obj [("price", Json.str "1")]])]])])).isOk = true :=
  ⟨rfl, rfl⟩

/-- C4 amended: only Mode A accepts both input shapes; for every bare-list
input it behaves exactly as on the equivalent `{"products": [...]}` input
(same rows, same skips, same errors). Mode B requires the mapping shape and
raises `TypeError` on a bare list (see the counterexample). -/
theorem c4_amended (ps : List Json) :
    modeAFile (Json.arr ps) = modeAFile (Json.obj [("products", Json.arr ps)]) := rfl

/-! ## Lemmas about `exceptTraverse` -/

theorem exceptTraverse_append {α β : Type} (f : α → Except Unit β) (l₁ l₂ : List α) :
    exceptTraverse f (l₁ ++ l₂) =
      (exceptTraverse f l₁).bind fun a => (exceptTraverse f l₂).map fun b => a ++ b := by
  induction l₁ with
  | nil =>
    simp only [List.nil_append, exceptTraverse]
    cases hl : exceptTraverse f l₂ with
    | error e => rfl
    | ok b => simp [Except.bind, Except.map]
  | cons x xs ih =>
    simp only [List.cons_append, exceptTraverse, List.append_eq]
    cases f x with
    | error e => rfl
    | ok b =>
      rw [ih]
      cases exceptTraverse f xs with
      | error e => rfl
      | ok a =>
        cases exceptTraverse f l₂ with
        | error e => rfl
        | ok c => simp [Except.bind, Except.map]

theorem exceptTraverse_isOk {α β : Type} (f : α → Except Unit β) (l : List α)
    (h : ∀ a ∈ l, (f a).isOk = true) : ∃ bs, exceptTraverse f l = .ok bs := by
  induction l with
  | nil => exact ⟨[], rfl⟩
  | cons x xs ih =>
    obtain ⟨bs, hbs⟩ := ih (fun a ha => h a (List.mem_cons_of_mem x ha))
    have hx := h x (List.mem_cons_self x xs)
    cases hfx : f x with
    | error e => rw [hfx] at hx; simp [Except.isOk, Except.toBool] at hx
    | ok b =>
      refine ⟨b :: bs, ?_⟩
      simp only [exceptTraverse, hfx, hbs]

/-! ## Claim C2 -/

/-- Do all four meta keys resolve on the product (pandas pulls them with
`errors='raise'`)? -/
def hasMetaKeys (p : Json) : Bool :=
  metaKeysB.all (fun k => (pullMeta p k).isOk)

/-- C2 counterexample: the claim says a product missing `variants` is
skipped with zero rows and the remaining products still processed; pandas'
`_pull_records` raises `KeyError` for a missing `record_path` key
(whatever the `errors` setting), and Mode B's loop has no `try/except`, so
the whole file aborts — the well-formed second product yields nothing
(processing the same product list without the bad product succeeds). -/
theorem c2_counterexample :
    modeBFile (Json.obj [("products", Json.arr
      [Json.obj [("title", Json.str "t"), ("vendor", Json.str "v"),
        ("handle", Json.str "h"), ("body_html", Json.str "")],
       Json.obj [("title", Json.str "t2"), ("vendor", Json.str "v2"),
        ("handle", Json.str "h2"), ("body_html", Json.str ""),
        ("variants", Json.arr [Json.obj [("price", Json.str "1")]])]])]) = .error () ∧
    (modeBFile (Json.obj [("products", Json.arr
      [Json.obj [("title", Json.str "t2"), ("vendor", Json.str "v2"),
        ("handle", Json.str "h2"), ("body_html", Json.str ""),
        ("variants", Json.arr [Json.obj [("price", Json.str "1")]])]])])).isOk = true :=
  ⟨rfl, rfl⟩

/-- Unfolding `modeBFile` on an input that is already of the shape
`{"products": [...]}`. -/
theorem modeBFile_wrap (ps : List Json) :
    modeBFile (Json.obj [("products", Json.arr ps)]) =
      if ps.isEmpty = true then .error ()
      else
        match modeBRawRows ps with
        | .error _ => .error ()
        | .ok raw => .ok (finalize raw) := rfl

/-- Inserting a product that contributes no pre-rows leaves the normalized
row list unchanged. -/
theorem modeBRawRows_insert (p : Json) (hp : modeBPreRows p = .ok [])
    (ps₁ ps₂ : List Json) :
    modeBRawRows (ps₁ ++ [p] ++ ps₂) = modeBRawRows (ps₁ ++ ps₂) := by
  unfold modeBRawRows
  rw [show ps₁ ++ [p] ++ ps₂ = ps₁ ++ ([p] ++ ps₂) from by simp]
  rw [exceptTraverse_append modeBPreRows ps₁ ([p] ++ ps₂),
    exceptTraverse_append modeBPreRows ps₁ ps₂]
  have hsingle : exceptTraverse modeBPreRows ([p] ++ ps₂) =
      (exceptTraverse modeBPreRows ps₂).map (fun bs => [] :: bs) := by
    rw [show [p] ++ ps₂ = p :: ps₂ from rfl]
    simp only [exceptTraverse, hp]
    cases exceptTraverse modeBPreRows ps₂ with
    | error e => rfl
    | ok bs => rfl
  rw [hsingle]
  cases exceptTraverse modeBPreRows ps₁ with
  | error e => rfl
  | ok a₁ =>
    cases exceptTraverse modeBPreRows ps₂ with
    | error e => rfl
    | ok a₂ => simp [Except.bind, Except.map]

/-- C2 amended: in Mode B a product whose `variants` field is the empty
list (and whose meta fields are present) contributes zero output rows —
inserting it anywhere into a product list that processes successfully
leaves the output rows unchanged; but a product missing `variants`
entirely is *not* skipped: pandas raises `KeyError` and the whole file
aborts (see the counterexample). -/
theorem c2_amended (p : Json) (ps₁ ps₂ : List Json) (rows : List RowB)
    (hv : lookupField p "variants" = some (Json.arr []))
    (hm : hasMetaKeys p = true)
    (h : modeBFile (Json.obj [("products", Json.arr (ps₁ ++ ps₂))]) = .ok rows) :
    modeBPreRows p = .ok [] ∧
    modeBFile (Json.obj [("products", Json.arr (ps₁ ++ [p] ++ ps₂))]) = .ok rows := by
  have hpre : modeBPreRows p = .ok [] := by
    match p, hv, hm with
    | Json.obj fs, hv, hm =>
      have hrec : pullRecords (Json.obj fs) = .ok [] := by
        simp only [lookupField] at hv
        simp only [pullRecords, hv]
      obtain ⟨ms, hms⟩ := exceptTraverse_isOk
          (fun k => (pullMeta (Json.obj fs) k).map (fun v => (k, v))) metaKeysB
          (by
            intro k hk
            have hko := (List.all_eq_true.mp hm) k hk
            cases hpm : pullMeta (Json.obj fs) k with
            | error e =>
              rw [hpm] at hko; simp [Except.isOk, Except.toBool] at hko
            | ok v => simp [hpm, Except.map, Except.isOk, Except.toBool])
      simp only [modeBPreRows, hrec, hms]
      rfl
  refine ⟨hpre, ?_⟩
  have hraw := modeBRawRows_insert p hpre ps₁ ps₂
  rw [modeBFile_wrap] at h
  rw [modeBFile_wrap]
  have hne : (ps₁ ++ [p] ++ ps₂).isEmpty = false := by
    simp [List.isEmpty_iff]
  rw [hne]
  simp only [Bool.false_eq_true, if_false]
  by_cases he : (ps₁ ++ ps₂).isEmpty = true
  · rw [if_pos he] at h; exact absurd h (by simp)
  · rw [if_neg he] at h
    rw [hraw]
    exact h

def c2ProductGood : Json :=
  Json.obj [("title", Json.str "Mat"), ("vendor", Json.str "V"),
    ("handle", Json.str "m"), ("body_html", Json.str "<p>Hi</p>"),
    ("variants", Json.arr [Json.obj [("price", Json.str "9"),
      ("sku", Json.str "S"), ("available", Json.bool true)]])]

def c2ProductEmptyVariants : Json :=
  Json.obj [("title", Json.str "E"), ("vendor", Json.str "V"),
    ("handle", Json.str "e"), ("body_html", Json.str ""),
    ("variants", Json.arr [])]

def c2Rows : List RowB :=
  match modeBFile (Json.obj [("products", Json.arr ([c2ProductGood] ++ []))]) with
  | .ok r => r
  | .error _ => []

theorem c2_amended_witness :
    modeBPreRows c2ProductEmptyVariants = .ok [] ∧
    modeBFile (Json.obj [("products",
      Json.arr ([c2ProductGood] ++ [c2ProductEmptyVariants] ++ []))]) = .ok c2Rows :=
  c2_amended c2ProductEmptyVariants [c2ProductGood] [] c2Rows rfl rfl rfl

/-! ## Claim C8 -/

theorem lookup_map_pair {β : Type} (l : List String) (g : String → β) (c : String)
    (hc : c ∈ l) : (l.map (fun x => (x, g x))).lookup c = some (g c) := by
  induction l with
  | nil => simp at hc
  | cons x xs ih =>
    by_cases hcx : c = x
    · subst hcx
      simp [List.lookup]
    · rcases List.mem_cons.mp hc with h1 | h2
      · exact absurd h1 hcx
      · have hbeq : (c == x) = false := by
          simp [hcx]
        simp [List.lookup, hbeq, ih h2]

theorem map_fst_map_pair {β : Type} (l : List String) (g : String → β) :
    (l.map (fun x => (x, g x))).map Prod.fst = l := by
  induction l with
  | nil => rfl
  | cons x xs ih => simp [ih]

/-- C8: every row emitted by Mode B has exactly the fixed, explicitly
ordered 21-column schema ending in title, vendor, handle, description,
regardless of which optional source fields were present; a column absent
from the whole file's normalized data appears filled with the empty string
rather than being omitted, so all rows of a run share one schema. -/
theorem c8_uniform_schema (data : Json) (ps : List Json)
    (raw : List (List (String × Json)))
    (h1 : modeBProducts data = .ok ps) (h2 : ps.isEmpty = false)
    (h3 : modeBRawRows ps = .ok raw) :
    modeBFile data = .ok (finalize raw) ∧
    column_order.length = 21 ∧
    column_order.drop 17 = ["title", "vendor", "handle", "description"] ∧
    ∀ r ∈ finalize raw, r.map Prod.fst = column_order ∧
      ∀ c ∈ column_order, colPresent raw c = false →
        r.lookup c = some (some (Json.str "")) := by
  refine ⟨?_, by decide, by decide, ?_⟩
  · unfold modeBFile
    rw [h1]
    simp only [h2, Bool.false_eq_true, if_false]
    rw [h3]
  · intro r hr
    obtain ⟨r₀, _, hrdef⟩ := List.mem_map.mp hr
    subst hrdef
    constructor
    · exact map_fst_map_pair column_order _
    · intro c hc hcp
      rw [lookup_map_pair column_order _ c hc, hcp]
      simp

def c8Product : Json :=
  Json.obj [("title", Json.str "Mat"), ("vendor", Json.str "V"),
    ("handle", Json.str "m"), ("body_html", Json.str "d"),
    ("variants", Json.arr [Json.obj [("id", Json.num 1),
      ("price", Json.str "9"), ("available", Json.bool true)]])]

def c8Data : Json := Json.obj [("products", Json.arr [c8Product])]

def c8Raw : List (List (String × Json)) :=
  match modeBRawRows [c8Product] with
  | .ok r => r
  | .error _ => []

theorem c8_witness :
    modeBFile c8Data = .ok (finalize c8Raw) ∧
    ∀ r ∈ finalize c8Raw, r.map Prod.fst = column_order :=
  ⟨(c8_uniform_schema c8Data [c8Product] c8Raw rfl rfl rfl).1,
   fun r hr => ((c8_uniform_schema c8Data [c8Product] c8Raw rfl rfl rfl).2.2.2 r hr).1⟩

/-! ## Lemmas: `json_normalize` flattening, the dot-to-underscore column
rename, and direct field access

The derived Mode A columns read `df['images']` / `df['variants']` after the
rename `col.replace('.', '_')`. For a column name without dots and
underscores (such as `images` or `variants`), the renamed flattened fields
of a product with distinct keys hold exactly the product's own top-level
field — except that a mapping-valued field is flattened away (the cell is
then `NaN`): nested fields always produce a dot in the column name, which
the rename turns into an underscore, so they can never collide with such a
name. -/

theorem map_renCh_eq (l : List Char) (h : '.' ∉ l) : l.map renCh = l := by
  induction l with
  | nil => rfl
  | cons a l' ih =>
    have ha : a ≠ '.' := fun hx => h (hx ▸ List.mem_cons_self a l')
    have hl : '.' ∉ l' := fun hx => h (List.mem_cons_of_mem a hx)
    simp [renCh, ha, ih hl]

theorem map_renCh_inj : ∀ (l m : List Char), '_' ∉ m → l.map renCh = m → l = m := by
  intro l
  induction l with
  | nil => intro m _ h; exact h
  | cons a l' ih =>
    intro m hm h
    rw [List.map_cons] at h
    cases m with
    | nil => simp at h
    | cons b m' =>
      have hb : renCh a = b := (List.cons.inj h).1
      have hm' : l'.map renCh = m' := (List.cons.inj h).2
      have hbm : b ≠ '_' := fun hx => hm (hx ▸ List.mem_cons_self b m')
      have hmm' : '_' ∉ m' := fun hx => hm (List.mem_cons_of_mem b hx)
      have hab : a = b := by
        by_cases hdot : a = '.'
        · exfalso; apply hbm; rw [← hb, hdot]; rfl
        · rw [← hb]; simp [renCh, hdot]
      rw [hab, ih m' hmm' hm']

theorem string_data_inj {s t : String} (h : s.data = t.data) : s = t := by
  cases s; cases t
  exact congrArg String.mk (by simpa using h)

theorem renameKey_eq_self (s : String) (h : '.' ∉ s.data) : renameKey s = s := by
  apply string_data_inj
  show (String.mk (s.data.map renCh)).data = s.data
  simp only [map_renCh_eq s.data h]

theorem renameKey_eq_imp {k c : String} (hc : '_' ∉ c.data) (h : renameKey k = c) :
    k = c := by
  apply string_data_inj
  have hd : k.data.map renCh = c.data := by
    have h2 := congrArg String.data h
    simpa [renameKey] using h2
  exact map_renCh_inj _ _ hc hd

theorem underscore_mem_renameKey_dot (k x : String) :
    '_' ∈ (renameKey (k ++ "." ++ x)).data := by
  show '_' ∈ ((k ++ "." ++ x).data.map renCh)
  have hmem : '.' ∈ (k ++ "." ++ x).data := by
    rw [String.data_append, String.data_append]
    simp [show ("." : String).data = ['.'] from rfl]
  exact List.mem_map.mpr ⟨'.', hmem, rfl⟩

theorem lookup_append_str {β : Type} (l₁ l₂ : List (String × β)) (c : String) :
    (l₁ ++ l₂).lookup c =
      match l₁.lookup c with
      | some v => some v
      | none => l₂.lookup c := by
  induction l₁ with
  | nil => rfl
  | cons kv l' ih =>
    cases hck : c == kv.1 <;>
      simp [List.lookup, hck, ih]

theorem lookup_none_of_ne {β : Type} (l : List (String × β)) (c : String)
    (h : ∀ kv ∈ l, kv.1 ≠ c) : l.lookup c = none := by
  induction l with
  | nil => rfl
  | cons kv l' ih =>
    have hk : kv.1 ≠ c := h kv (List.mem_cons_self kv l')
    have hck : (c == kv.1) = false := by
      simp [Ne.symm hk]
    simp [List.lookup, hck, ih (fun x hx => h x (List.mem_cons_of_mem kv hx))]

/-- The cell a `json_normalize`d row carries for a top-level field: the
field's value, except that mapping values are flattened away (`NaN`). -/
def flatCellOf : Option Json → Option Json
  | some (Json.obj _) => none
  | o => o

theorem normEntry_not_obj (k : String) (v : Json) (h : isObj v = false) :
    normFields.normEntry k v = [(k, v)] := by
  cases v <;> simp_all [normFields.normEntry, isObj]

theorem flatCellOf_not_obj (v : Json) (h : isObj v = false) :
    flatCellOf (some v) = some v := by
  cases v <;> simp_all [flatCellOf, isObj]

theorem lookup_renCols_normEntry_obj (k : String) (gs : List (String × Json))
    (c : String) (hund : '_' ∉ c.data) :
    (renCols (normFields.normEntry k (Json.obj gs))).lookup c = none := by
  apply lookup_none_of_ne
  intro kv hkv
  simp only [normFields.normEntry, renCols, List.map_map, List.mem_map] at hkv
  obtain ⟨kv₀, _, hdef⟩ := hkv
  intro hkc
  apply hund
  rw [← hkc, ← hdef]
  exact underscore_mem_renameKey_dot k kv₀.1

theorem lookup_renCols_normFields_none (fs : List (String × Json)) (c : String)
    (hund : '_' ∉ c.data) (h : c ∉ fs.map Prod.fst) :
    (renCols (normFields fs)).lookup c = none := by
  induction fs with
  | nil => rfl
  | cons kv rest ih =>
    obtain ⟨k, v⟩ := kv
    have hk : c ≠ k := by
      intro hx
      exact h (by simp [hx])
    have hrest : c ∉ rest.map Prod.fst := fun hx => h (List.mem_cons_of_mem _ hx)
    show (renCols (normFields.normEntry k v ++ normFields rest)).lookup c = none
    rw [show renCols (normFields.normEntry k v ++ normFields rest)
          = renCols (normFields.normEntry k v) ++ renCols (normFields rest)
        from List.map_append _ _ _]
    rw [lookup_append_str]
    cases hobj : isObj v with
    | true =>
      match v, hobj with
      | Json.obj gs, _ =>
        rw [lookup_renCols_normEntry_obj k gs c hund]
        exact ih hrest
    | false =>
      rw [normEntry_not_obj k v hobj]
      have hne : (renCols [(k, v)]).lookup c = none := by
        apply lookup_none_of_ne
        intro kv₂ hkv₂
        simp only [renCols, List.map_cons, List.map_nil, List.mem_singleton] at hkv₂
        rw [hkv₂]
        intro hx
        exact hk (renameKey_eq_imp hund hx).symm
      rw [hne]
      exact ih hrest

theorem lookup_renCols_normFields (fs : List (String × Json)) (c : String)
    (hnd : (fs.map Prod.fst).Nodup) (hdot : '.' ∉ c.data) (hund : '_' ∉ c.data) :
    (renCols (normFields fs)).lookup c = flatCellOf (fs.lookup c) := by
  induction fs with
  | nil => rfl
  | cons kv rest ih =>
    obtain ⟨k, v⟩ := kv
    rw [List.map_cons, List.nodup_cons] at hnd
    show (renCols (normFields.normEntry k v ++ normFields rest)).lookup c
      = flatCellOf ((( k, v) :: rest).lookup c)
    rw [show renCols (normFields.normEntry k v ++ normFields rest)
          = renCols (normFields.normEntry k v) ++ renCols (normFields rest)
        from List.map_append _ _ _]
    rw [lookup_append_str]
    by_cases hck : c = k
    · subst hck
      have hbeq : (c == c) = true := by simp
      cases hobj : isObj v with
      | true =>
        match v, hobj with
        | Json.obj gs, _ =>
          rw [lookup_renCols_normEntry_obj c gs c hund]
          rw [lookup_renCols_normFields_none rest c hund hnd.1]
          simp [List.lookup, flatCellOf]
      | false =>
        rw [normEntry_not_obj c v hobj]
        have hself : renameKey c = c := renameKey_eq_self c hdot
        have hlk : (renCols [(c, v)]).lookup c = some v := by
          simp [renCols, hself, List.lookup]
        rw [hlk]
        rw [show ((c, v) :: rest).lookup c = some v from by simp [List.lookup]]
        exact (flatCellOf_not_obj v hobj).symm
    · have hbeq : (c == k) = false := by simp [hck]
      have hfirst : (renCols (normFields.normEntry k v)).lookup c = none := by
        cases hobj : isObj v with
        | true =>
          match v, hobj with
          | Json.obj gs, _ => exact lookup_renCols_normEntry_obj k gs c hund
        | false =>
          rw [normEntry_not_obj k v hobj]
          apply lookup_none_of_ne
          intro kv₂ hkv₂
          simp only [renCols, List.map_cons, List.map_nil, List.mem_singleton] at hkv₂
          rw [hkv₂]
          intro hx
          exact hck (renameKey_eq_imp hund hx).symm
      rw [hfirst]
      rw [show ((k, v) :: rest).lookup c = rest.lookup c from by simp [List.lookup, hbeq]]
      exact ih hnd.2

/-! ## Claim C1 -/

/-- The five derived Mode A columns of a row. -/
def derivedOf (r : ModeARow) : Nat × Nat × Option Json × Option Json × Option Json :=
  (r.images_count, r.variants_count, r.main_price, r.main_sku, r.available)

/-- Modelled from the spec: the five derived columns as the specification
describes them, read directly off the product's fields. -/
def specDerived (p : Json) : Nat × Nat × Option Json × Option Json × Option Json :=
  (specImagesCount p, specVariantsCount p,
   specMainField p "price", specMainField p "sku", specMainField p "available")

/-- Does the first variant (when `variants` holds a non-empty list) carry
the three fields the derived columns read? When it does not, Python's
`x[0]['price']` (etc.) raises. -/
def specFirstVariantOk (p : Json) : Bool :=
  match lookupField p "variants" with
  | some (Json.arr (v :: _)) =>
    (lookupField v "price").isSome && (lookupField v "sku").isSome &&
      (lookupField v "available").isSome
  | _ => true

/-- Are the product's top-level keys distinct (as they always are for a
parsed JSON object)? -/
def topKeysNodup : Json → Bool
  | Json.obj fs => decide ((fs.map Prod.fst).Nodup)
  | _ => true

theorem listLenOr0_flatCell (o : Option Json) :
    listLenOr0 (flatCellOf o) =
      match o with
      | some (Json.arr l) => l.length
      | _ => 0 := by
  match o with
  | none => rfl
  | some Json.null => rfl
  | some (Json.bool _) => rfl
  | some (Json.num _) => rfl
  | some (Json.str _) => rfl
  | some (Json.arr _) => rfl
  | some (Json.obj _) => rfl

theorem mainField_of_spec (fs : List (String × Json)) (k : String)
    (hfv : specFirstVariantOk (Json.obj fs) = true)
    (hk : k = "price" ∨ k = "sku" ∨ k = "available") :
    mainField (flatCellOf (fs.lookup "variants")) k
      = .ok (specMainField (Json.obj fs) k) := by
  simp only [specFirstVariantOk, lookupField] at hfv
  simp only [specMainField, lookupField]
  cases hlv : fs.lookup "variants" with
  | none => rfl
  | some w =>
    rw [hlv] at hfv
    match w with
    | Json.null => rfl
    | Json.bool _ => rfl
    | Json.num _ => rfl
    | Json.str _ => rfl
    | Json.obj _ => rfl
    | Json.arr [] => rfl
    | Json.arr (v :: vs) =>
      simp only [Bool.and_eq_true] at hfv
      have hks : (lookupField v k).isSome = true := by
        rcases hk with h | h | h <;> rw [h]
        · exact hfv.1.1
        · exact hfv.1.2
        · exact hfv.2
      match v, hks with
      | Json.obj gs, hks =>
        simp only [lookupField] at hks ⊢
        obtain ⟨x, hx⟩ := Option.isSome_iff_exists.mp hks
        show mainField (some (Json.arr (Json.obj gs :: vs))) k = _
        simp only [mainField, pyIndexStr, hx, Except.map]

theorem rowA_spec (hb : Bool) (fs : List (String × Json))
    (hnd : (fs.map Prod.fst).Nodup)
    (hfv : specFirstVariantOk (Json.obj fs) = true) :
    (rowA hb (Json.obj fs)).map derivedOf = .ok (specDerived (Json.obj fs)) := by
  have hvar : cellA (Json.obj fs) "variants" = flatCellOf (fs.lookup "variants") :=
    lookup_renCols_normFields fs "variants" hnd (by decide) (by decide)
  have himg : cellA (Json.obj fs) "images" = flatCellOf (fs.lookup "images") :=
    lookup_renCols_normFields fs "images" hnd (by decide) (by decide)
  have hp := mainField_of_spec fs "price" hfv (Or.inl rfl)
  have hs := mainField_of_spec fs "sku" hfv (Or.inr (Or.inl rfl))
  have ha := mainField_of_spec fs "available" hfv (Or.inr (Or.inr rfl))
  unfold rowA
  rw [hvar, hp, hs, ha]
  simp only [Except.map, derivedOf, specDerived]
  congr 1
  refine congrArg₂ _ ?_ (congrArg₂ _ ?_ rfl)
  · rw [himg, listLenOr0_flatCell]
    rfl
  · rw [listLenOr0_flatCell]
    rfl

theorem traverse_rowA (hb : Bool) : ∀ ps : List Json,
    ps.all isObj = true → ps.all topKeysNodup = true →
    ps.all specFirstVariantOk = true →
    (exceptTraverse (rowA hb) ps).map (List.map derivedOf)
      = .ok (ps.map specDerived) := by
  intro ps
  induction ps with
  | nil => intro _ _ _; rfl
  | cons p rest ih =>
    intro hobj hnd hfv
    rw [List.all_cons, Bool.and_eq_true] at hobj hnd hfv
    have ihres := ih hobj.2 hnd.2 hfv.2
    match p, hobj.1, hnd.1 with
    | Json.obj fs, _, hnd1 =>
      have hnd1' : (fs.map Prod.fst).Nodup := by
        simpa [topKeysNodup] using hnd1
      have hrow := rowA_spec hb fs hnd1' hfv.1
      cases hr : rowA hb (Json.obj fs) with
      | error e => rw [hr] at hrow; simp [Except.map] at hrow
      | ok r =>
        rw [hr] at hrow
        simp only [Except.map, Except.ok.injEq] at hrow
        cases ht : exceptTraverse (rowA hb) rest with
        | error e => rw [ht] at ihres; simp [Except.map] at ihres
        | ok l =>
          rw [ht] at ihres
          simp only [Except.map, Except.ok.injEq] at ihres
          simp only [exceptTraverse, hr, ht, Except.map, List.map_cons,
            Except.ok.injEq, hrow, ihres]

/-- C1 counterexample: the claim says Mode A computes the derived columns
for *every* product record without raising; on the one-product file
`[{"title": "x"}]` no product has an `images` (or `variants`) field, the
normalized frame has no such column, and `df['images']` raises `KeyError`
— although the claim (and the spec's own per-product description) expects
counts 0 and null main fields. -/
theorem c1_counterexample :
    modeADerived [Json.obj [("title", Json.str "x")]] = .error () ∧
    specDerived (Json.obj [("title", Json.str "x")]) = (0, 0, none, none, none) :=
  ⟨rfl, rfl⟩

/-- C1 amended: Mode A computes `images_count`, `variants_count`,
`main_price`, `main_sku`, `available` exactly as the spec's per-product
formulas describe, raising no exception, *provided* at least one product
in the file contributes an `images` column and one a `variants` column
(otherwise the column accesses raise `KeyError`) and every product whose
`variants` is a non-empty list has a first variant that is a mapping
containing the `price`, `sku` and `available` keys (otherwise
`x[0]['price']` raises); a product with `variants: []` indeed yields
`variants_count = 0` and all three main fields null. -/
theorem c1_amended (ps : List Json)
    (hobj : ps.all isObj = true)
    (hnd : ps.all topKeysNodup = true)
    (himg : hasColumnA ps "images" = true)
    (hvar : hasColumnA ps "variants" = true)
    (hfv : ps.all specFirstVariantOk = true) :
    (modeADerived ps).map (List.map derivedOf) = .ok (ps.map specDerived) := by
  unfold modeADerived
  rw [if_pos ⟨by rw [hobj], himg, hvar⟩]
  exact traverse_rowA (hasColumnA ps "body_html") ps hobj hnd hfv

theorem c1_amended_witness :
    (modeADerived [Json.obj [("images", Json.arr []), ("variants", Json.arr [])]]).map
        (List.map derivedOf)
      = .ok ([Json.obj [("images", Json.arr []), ("variants", Json.arr [])]].map
          specDerived) :=
  c1_amended [Json.obj [("images", Json.arr []), ("variants", Json.arr [])]]
    rfl (by decide) rfl rfl rfl
